import Mathlib

/-!
# Verification of the commonplace-book-explorer clustering engine

A shallow embedding of `src/script/cluster_folger.py` together with proofs
about its specification.  Strings are modelled as lists of characters and
Python's `str` methods are modelled on their ASCII fragment (the data are
English first lines, and none of the verified properties depends on the
character set).  NumPy matrices are modelled as lists of rows over `Int`
(entries of the distance matrix are integers), the matrix file on disk as an
`Option` value, and Python exceptions as `Except` results.
-/

namespace ClusterFolger

/-- ASCII fragment of Python `str.isspace` (the characters Python's
`split`/`strip` treat as whitespace). -/
def pyIsSpace (c : Char) : Bool :=
  c == ' ' || c == '\t' || c == '\n' || c == '\r' || c == '\x0b' || c == '\x0c'

/-- ASCII fragment of Python `str.isalnum`. -/
def pyIsAlnum (c : Char) : Bool :=
  decide ('a' ≤ c ∧ c ≤ 'z') || decide ('A' ≤ c ∧ c ≤ 'Z') ||
    decide ('0' ≤ c ∧ c ≤ '9')

/-- ASCII fragment of Python `str.lower`, character by character. -/
def pyLower (c : Char) : Char :=
  if decide ('A' ≤ c ∧ c ≤ 'Z') then Char.ofNat (c.toNat + 32) else c

/-- The character filter of `process_first_line`:
`char.isalnum() or char.isspace()`. -/
def keepChar (c : Char) : Bool :=
  pyIsAlnum c || pyIsSpace c

/-- Python `str.strip()`: drop leading and trailing whitespace. -/
def pyStrip (s : List Char) : List Char :=
  ((s.dropWhile pyIsSpace).reverse.dropWhile pyIsSpace).reverse

/-- Worker for `pySplit`, accumulating the current (reversed) token. -/
def pySplitAux : List Char → List Char → List (List Char)
  | [], acc => if acc = [] then [] else [acc.reverse]
  | c :: cs, acc =>
      if pyIsSpace c then
        if acc = [] then pySplitAux cs [] else acc.reverse :: pySplitAux cs []
      else
        pySplitAux cs (c :: acc)

/-- Python `str.split()` with no argument: split on runs of whitespace,
dropping empty tokens. -/
def pySplit (s : List Char) : List (List Char) :=
  pySplitAux s []

/-- Python `" ".join(tokens)`. -/
def joinSpace (tokens : List (List Char)) : List Char :=
  List.intercalate [' '] tokens

/-- The function `process_first_line` from `cluster_folger.py`:
`line.strip().lower()`, then keep alphanumeric/whitespace characters, then
`split()`.  The source's `lru_cache` decorator is pure memoization and has no
semantic content. -/
def process_first_line (line : List Char) : List (List Char) :=
  pySplit (((pyStrip line).map pyLower).filter keepChar)

/-- The significant-token set builder of `line_similarity`:
the set comprehension keeping words of length at least 4. -/
def significant (l : List (List Char)) : List (List Char) :=
  l.filter (fun word => 4 ≤ word.length)

/-- Unit-cost Levenshtein edit distance, the mathematical function computed
by the `distance` package's `distance.levenshtein`. -/
def levenshtein : List Char → List Char → ℕ
  | [], l2 => l2.length
  | l1, [] => l1.length
  | c1 :: t1, c2 :: t2 =>
      min (min (levenshtein t1 (c2 :: t2) + 1) (levenshtein (c1 :: t1) t2 + 1))
        (levenshtein t1 t2 + if c1 = c2 then 0 else 1)
termination_by l1 l2 => l1.length + l2.length
decreasing_by all_goals (simp only [List.length_cons]; omega)

/-- A record as fetched from the database: `(id, first line)`.  The id type
is opaque to `line_similarity`, hence a type parameter. -/
def line_similarity {α : Type} (t1 t2 : α × List Char) : ℤ :=
  let l1 := process_first_line t1.2
  let l2 := process_first_line t2.2
  let s1 := significant l1
  let s2 := significant l2
  let joined_l1 := joinSpace l1
  let joined_l2 := joinSpace l2
  let d : ℕ :=
    if s1.inter s2 = [] then max joined_l1.length joined_l2.length
    else levenshtein joined_l1 joined_l2
  Neg.neg (d : ℤ)

/-- A concrete record as fetched from the sqlite store: integer id and
first-line text. -/
abbrev Rec : Type := ℤ × List Char

/-- Default record, used only for out-of-range list indexing (the source
never indexes out of range). -/
def dfltRec : Rec := (0, [])

/-- The pair loop of `get_or_create_distance_matrix`:
`for i in range(n): for j in range(i + 1, n)`, as the list of visited
index pairs in visit order. -/
def pairList (n : ℕ) : List (ℕ × ℕ) :=
  (List.range n).flatMap (fun i =>
    (List.range' (i + 1) (n - (i + 1))).map (fun j => (i, j)))

/-- One NumPy cell assignment `matrix[i][j] = v` on a matrix modelled as a
function of the two indices. -/
def setEntry (M : ℕ → ℕ → ℤ) (i j : ℕ) (v : ℤ) : ℕ → ℕ → ℤ :=
  fun a b => if a = i ∧ b = j then v else M a b

/-- The body of the pair loop: `dist = line_similarity(...)`;
`dist_matrix[i][j] = dist`; `dist_matrix[j][i] = dist`, generic in the
per-pair value function. -/
def fillStep (f : ℕ × ℕ → ℤ) (M : ℕ → ℕ → ℤ) (p : ℕ × ℕ) : ℕ → ℕ → ℤ :=
  setEntry (setEntry M p.1 p.2 (f p)) p.2 p.1 (f p)

/-- The per-pair value computed in the loop body:
`line_similarity(first_lines[i], first_lines[j])`. -/
def pairDist (rs : List Rec) (p : ℕ × ℕ) : ℤ :=
  line_similarity (rs.getD p.1 dfltRec) (rs.getD p.2 dfltRec)

/-- The matrix produced by running the fill loop of
`get_or_create_distance_matrix` over `np.zeros((n, n))`, viewed as a
function of the indices. -/
def buildMatrixFn (rs : List Rec) : ℕ → ℕ → ℤ :=
  (pairList rs.length).foldl (fillStep (pairDist rs)) (fun _ _ => 0)

/-- The freshly computed distance matrix as a list of rows (the
materialization of `buildMatrixFn` on indices below `n`, i.e. the NumPy
array contents). -/
def buildMatrix (rs : List Rec) : List (List ℤ) :=
  (List.range rs.length).map (fun i =>
    (List.range rs.length).map (fun j => buildMatrixFn rs i j))

/-- The shape test `dist_matrix.shape != (n, n)` of the cache-loading
branch (NumPy arrays are rectangular, so on a list of rows the test reads:
`n` rows, each of length `n`). -/
def hasShape (M : List (List ℤ)) (n : ℕ) : Bool :=
  M.length == n && M.all (fun row => row.length == n)

/-- The error raised by `get_or_create_distance_matrix` when a cached
matrix has the wrong shape (a `ValueError` in the source; the spec calls it
`ShapeMismatch`). -/
inductive CacheError : Type
  | shapeMismatch
deriving DecidableEq

/-- The function `get_or_create_distance_matrix` from `cluster_folger.py`.  The durable
store is modelled by the `Option`al contents of the file at `matrix_path`:
`some M` when `os.path.exists` is true and `np.load` yields `M`.  The
`np.save` side effect does not alter the returned value and is not
modelled. -/
def get_or_create_distance_matrix (first_lines : List Rec)
    (stored : Option (List (List ℤ))) : Except CacheError (List (List ℤ)) :=
  let n := first_lines.length
  match stored with
  | some dist_matrix =>
      if hasShape dist_matrix n then Except.ok dist_matrix
      else Except.error CacheError.shapeMismatch
  | none => Except.ok (buildMatrix first_lines)

/-- Largest value of a nonempty list of rationals (used only with nonempty
lists). -/
def qMaxOver (l : List ℚ) : ℚ :=
  match l with
  | [] => 0
  | x :: xs => xs.foldl max x

/-- Sum of a list of rationals. -/
def qSum (l : List ℚ) : ℚ :=
  l.foldl (fun a b => a + b) 0

/-- Index maximizing `f` over a candidate list (first maximizer wins; `0`
for an empty candidate list). -/
def argmaxBy (f : ℕ → ℚ) : List ℕ → ℕ
  | [] => 0
  | x :: xs => xs.foldl (fun b k => if f b < f k then k else b) x

/-- Modelled from the spec: one message-passing iteration of affinity
propagation, section 4.4 steps 2a to 2c.  The clustering algorithm itself is
not in the repository sources (the script delegates to an external library
call), so it is reconstructed from the spec: responsibilities then
availabilities are updated from the similarity matrix `S` and blended with
the previous values by the damping factor. -/
def apIter (S : ℕ → ℕ → ℚ) (n : ℕ) (damping : ℚ)
    (ra : (ℕ → ℕ → ℚ) × (ℕ → ℕ → ℚ)) : (ℕ → ℕ → ℚ) × (ℕ → ℕ → ℚ) :=
  let r := ra.1
  let a := ra.2
  let rNew : ℕ → ℕ → ℚ := fun i j =>
    damping * r i j + (1 - damping) *
      (S i j -
        qMaxOver (((List.range n).filter (fun k => k ≠ j)).map
          (fun k => a i k + S i k)))
  let aNew : ℕ → ℕ → ℚ := fun i j =>
    damping * a i j + (1 - damping) *
      (if i = j then
        qSum (((List.range n).filter (fun k => k ≠ j)).map
          (fun k => max 0 (rNew k j)))
      else
        min 0 (rNew j j +
          qSum (((List.range n).filter (fun k => k ≠ i ∧ k ≠ j)).map
            (fun k => max 0 (rNew k j)))))
  (rNew, aNew)

/-- Modelled from the spec: affinity propagation, section 4.4.  Zero
records give an empty labelling (section 7, `EmptyInput`), a single record
is its own exemplar with no message passing (section 4.4, trivial case);
otherwise messages are passed for `maxIter` iterations and exemplars are
the points with positive self responsibility plus availability, every point
being assigned to the exemplar of greatest similarity, an exemplar to
itself.  The early-stopping window (step 2d) only cuts iterations short and
is not modelled; no theorem below depends on the message values. -/
def apLabels (S : ℕ → ℕ → ℚ) (n : ℕ) (damping : ℚ) (maxIter : ℕ) : List ℕ :=
  if n = 0 then []
  else if n = 1 then [0]
  else
    let ra := Nat.iterate (apIter S n damping) maxIter (fun _ _ => 0, fun _ _ => 0)
    let exemplars := (List.range n).filter (fun i => 0 < ra.1 i i + ra.2 i i)
    (List.range n).map (fun j =>
      if j ∈ exemplars then j else argmaxBy (fun i => S j i) exemplars)

/-- The clustering call of the script:
`AffinityPropagation(affinity="precomputed", damping=0.5, max_iter=1000)`
applied to a distance matrix, whose entries the library consumes directly
as similarities.  The algorithm is the spec-modelled `apLabels`. -/
def cluster_labels (M : List (List ℤ)) : List ℕ :=
  apLabels (fun i j => (((M.getD i []).getD j 0 : ℤ) : ℚ)) M.length (1 / 2) 1000

/-- Model of `np.unique` of a list of labels: the distinct values in increasing
order. -/
def uniqueSorted (l : List ℕ) : List ℕ :=
  (List.range (l.foldr max 0 + 1)).filter (fun x => l.contains x)

/-- The inner loops of `create_subclusters`: for each subcluster id in
`np.unique(labels)`, one CSV row
`(cluster, subcluster, witness_id, first_line)` per record carrying that
label, in index order. -/
def subclusterRows (cid : ℤ) (recs : List Rec) (labels : List ℕ) :
    List (ℤ × ℕ × ℤ × List Char) :=
  (uniqueSorted labels).flatMap (fun sub =>
    ((List.range recs.length).filter (fun i => labels.getD i 0 == sub)).map
      (fun i => (cid, sub, (recs.getD i dfltRec).1, (recs.getD i dfltRec).2)))

/-- The per-cluster loop of `create_subclusters`.  `clusters` is the
grouped record list in iteration order, `store` maps each cluster id to the
contents of its cache file `dist_matrix_<id>.npy`.  The loop body has no
exception handling, so the `Except` monad models the propagation of a
matrix-cache error out of the whole loop; on success the produced CSV rows
are returned in order. -/
def create_subclusters (clusters : List (ℤ × List Rec))
    (store : ℤ → Option (List (List ℤ))) :
    Except CacheError (List (ℤ × ℕ × ℤ × List Char)) :=
  match clusters with
  | [] => Except.ok []
  | (cid, recs) :: rest =>
      match get_or_create_distance_matrix recs (store cid) with
      | Except.error e => Except.error e
      | Except.ok M =>
          match create_subclusters rest store with
          | Except.error e => Except.error e
          | Except.ok tailRows =>
              Except.ok (subclusterRows cid recs (cluster_labels M) ++ tailRows)

/-- Sample record: first line with only short tokens. -/
def catRec : Rec := (0, ("cat".toList))

/-- Sample record: a single significant token, disjoint from `catRec`. -/
def dogsRec : Rec := (1, ("dogs".toList))

/-- Sample record: nonempty text all of whose tokens are shorter than 4. -/
def catSatRec : Rec := (0, ("cat sat".toList))

/-- Sample record used as a singleton cluster. -/
def abcdRec : Rec := (7, ("abcd".toList))

/-- Sample record used as a second singleton cluster. -/
def wxyzRec : Rec := (5, ("wxyz".toList))

/-- Same text as `catRec` under a different id. -/
def catRec2 : Rec := (5, ("cat".toList))

/-- Same text as `dogsRec` under a different id. -/
def dogsRec2 : Rec := (9, ("dogs".toList))

/-- A per-cluster cache store holding a stale 2 by 2 matrix for cluster 0
and nothing for any other cluster. -/
def staleStore : ℤ → Option (List (List ℤ)) :=
  fun cid => if cid = 0 then some [[0, 0], [0, 0]] else none

/-- Following the spec's words (section 4.1): lowercase, strip characters
that are neither alphanumeric nor whitespace, split on whitespace.  Note the
spec has no leading/trailing strip step; `process_first_line_eq_spec` below
shows the source's extra `strip()` makes no difference. -/
def spec_normalize (text : List Char) : List (List Char) :=
  pySplit ((text.map pyLower).filter keepChar)

/-- Following the spec's words (section 4.2 steps 1 to 4): normalize both
lines, build the significant-token sets (tokens of length at least 4),
return the maximum of the joined-token-string lengths when the sets share
no token, and otherwise the Levenshtein distance between the tokens
rejoined with single spaces. -/
def spec_distance (a b : ℤ × List Char) : ℕ :=
  let Ta := spec_normalize a.2
  let Tb := spec_normalize b.2
  let sa := Ta.filter (fun w => 4 ≤ w.length)
  let sb := Tb.filter (fun w => 4 ≤ w.length)
  let ja := joinSpace Ta
  let jb := joinSpace Tb
  if ∀ w ∈ sa, w ∉ sb then max ja.length jb.length
  else levenshtein ja jb

/-! ## Lemmas about splitting, stripping and normalization -/

theorem pySplitAux_allSpace :
    ∀ (t : List Char), (∀ c ∈ t, pyIsSpace c = true) →
      ∀ acc, pySplitAux t acc = if acc = [] then [] else [acc.reverse]
  | [], _, acc => rfl
  | c :: t, h, acc => by
      have hc : pyIsSpace c = true := h c (List.mem_cons_self c t)
      have ih := pySplitAux_allSpace t (fun x hx => h x (List.mem_cons_of_mem c hx))
      by_cases ha : acc = [] <;>
        simp [pySplitAux, hc, ha, ih []]

theorem pySplitAux_append_spaces (t : List Char)
    (ht : ∀ c ∈ t, pyIsSpace c = true) :
    ∀ (s : List Char) (acc : List Char),
      pySplitAux (s ++ t) acc = pySplitAux s acc
  | [], acc => by
      rw [List.nil_append, pySplitAux_allSpace t ht acc]; rfl
  | c :: s, acc => by
      by_cases hc : pyIsSpace c = true <;>
        by_cases ha : acc = [] <;>
          simp [pySplitAux, hc, ha, pySplitAux_append_spaces t ht s]

theorem pySplitAux_spaces_prefix :
    ∀ (pre : List Char), (∀ c ∈ pre, pyIsSpace c = true) →
      ∀ (m : List Char), pySplitAux (pre ++ m) [] = pySplitAux m []
  | [], _, m => rfl
  | c :: pre, h, m => by
      have hc : pyIsSpace c = true := h c (List.mem_cons_self c pre)
      have ih := pySplitAux_spaces_prefix pre
        (fun x hx => h x (List.mem_cons_of_mem c hx)) m
      simp [pySplitAux, hc, ih]

theorem pyLower_space {c : Char} (hc : pyIsSpace c = true) : pyLower c = c := by
  simp only [pyIsSpace, Bool.or_eq_true, beq_iff_eq] at hc
  rcases hc with ((((h | h) | h) | h) | h) | h <;> subst h <;> decide

theorem keepChar_space {c : Char} (hc : pyIsSpace c = true) :
    keepChar c = true := by
  simp [keepChar, hc]

theorem map_pyLower_allSpace {l : List Char}
    (h : ∀ c ∈ l, pyIsSpace c = true) : l.map pyLower = l := by
  induction l with
  | nil => rfl
  | cons c t ih =>
      simp only [List.map_cons]
      rw [pyLower_space (h c (List.mem_cons_self c t)),
        ih (fun x hx => h x (List.mem_cons_of_mem c hx))]

theorem filter_keepChar_allSpace {l : List Char}
    (h : ∀ c ∈ l, pyIsSpace c = true) : l.filter keepChar = l :=
  List.filter_eq_self.mpr (fun c hc => keepChar_space (h c hc))

theorem pyStrip_decomp (s : List Char) :
    ∃ pre suf, s = pre ++ pyStrip s ++ suf ∧
      (∀ c ∈ pre, pyIsSpace c = true) ∧ (∀ c ∈ suf, pyIsSpace c = true) := by
  refine ⟨s.takeWhile pyIsSpace,
    (((s.dropWhile pyIsSpace).reverse.takeWhile pyIsSpace)).reverse, ?_, ?_, ?_⟩
  · conv_lhs => rw [← List.takeWhile_append_dropWhile (p := pyIsSpace) (l := s)]
    rw [List.append_assoc]
    congr 1
    conv_lhs => rw [← List.reverse_reverse (s.dropWhile pyIsSpace),
      ← List.takeWhile_append_dropWhile (p := pyIsSpace)
        (l := (s.dropWhile pyIsSpace).reverse)]
    rw [List.reverse_append]
    rfl
  · intro c hc
    exact List.mem_takeWhile_imp hc
  · intro c hc
    rw [List.mem_reverse] at hc
    exact List.mem_takeWhile_imp hc

/-- The `strip()` in `process_first_line` is redundant: the source
normalizer agrees with the spec's normalizer (section 4.1), which has no
strip step. -/
theorem process_first_line_eq_spec (s : List Char) :
    process_first_line s = spec_normalize s := by
  obtain ⟨pre, suf, hs, hpre, hsuf⟩ := pyStrip_decomp s
  unfold process_first_line spec_normalize
  conv_rhs => rw [hs]
  rw [List.map_append, List.map_append, List.filter_append, List.filter_append,
    map_pyLower_allSpace hpre, map_pyLower_allSpace hsuf,
    filter_keepChar_allSpace hpre, filter_keepChar_allSpace hsuf]
  unfold pySplit
  rw [List.append_assoc, pySplitAux_spaces_prefix pre hpre,
    pySplitAux_append_spaces suf hsuf]

/-! ## Lemmas about the Levenshtein distance -/

theorem levenshtein_nil_right (l : List Char) : levenshtein l [] = l.length := by
  cases l <;> simp [levenshtein]

theorem levenshtein_self : ∀ l : List Char, levenshtein l l = 0
  | [] => by simp [levenshtein]
  | c :: t => by
      have ih := levenshtein_self t
      simp [levenshtein, ih]

theorem levenshtein_symm : ∀ l1 l2 : List Char,
    levenshtein l1 l2 = levenshtein l2 l1
  | [], l2 => by rw [levenshtein_nil_right]; cases l2 <;> simp [levenshtein]
  | c1 :: t1, [] => by rw [levenshtein_nil_right]; simp [levenshtein]
  | c1 :: t1, c2 :: t2 => by
      have h1 := levenshtein_symm t1 (c2 :: t2)
      have h2 := levenshtein_symm (c1 :: t1) t2
      have h3 := levenshtein_symm t1 t2
      have hc : (if c1 = c2 then (0 : ℕ) else 1) = if c2 = c1 then 0 else 1 := by
        by_cases h : c1 = c2 <;> simp [h, Ne.symm, eq_comm]
      simp only [levenshtein, h1, h2, h3, hc]
      omega
termination_by l1 l2 => l1.length + l2.length
decreasing_by all_goals (simp only [List.length_cons]; omega)

/-! ## Lemmas about the matrix fill loop -/

theorem pairList_mem (n i j : ℕ) : (i, j) ∈ pairList n ↔ i < j ∧ j < n := by
  simp only [pairList, List.mem_flatMap, List.mem_map, List.mem_range,
    List.mem_range'_1, Prod.mk.injEq]
  constructor
  · rintro ⟨a, ha, b, ⟨hb1, hb2⟩, rfl, rfl⟩
    omega
  · rintro ⟨hij, hjn⟩
    exact ⟨i, by omega, j, ⟨by omega, by omega⟩, rfl, rfl⟩

theorem pairList_increasing (n : ℕ) : ∀ p ∈ pairList n, p.1 < p.2 := by
  rintro ⟨i, j⟩ hp
  exact ((pairList_mem n i j).mp hp).1

theorem pairList_nodup (n : ℕ) : (pairList n).Nodup := by
  refine List.nodup_flatMap.mpr ⟨?_, ?_⟩
  · intro i _
    exact (List.nodup_range' (s := i + 1) (n := n - (i + 1))).map
      (fun a b h => by injection h)
  · refine List.Pairwise.imp ?_ (List.pairwise_lt_range n)
    intro a b hab
    intro p hpa hpb
    simp only [List.mem_map] at hpa hpb
    obtain ⟨ja, _, rfl⟩ := hpa
    obtain ⟨jb, _, hEq⟩ := hpb
    exact absurd (congrArg Prod.fst hEq).symm (by omega)

theorem fill_frame (f : ℕ × ℕ → ℤ) :
    ∀ (ps : List (ℕ × ℕ)) (M : ℕ → ℕ → ℤ) (a b : ℕ),
      (a, b) ∉ ps → (b, a) ∉ ps →
      (ps.foldl (fillStep f) M) a b = M a b
  | [], _, _, _, _, _ => rfl
  | p :: ps, M, a, b, hab, hba => by
      rw [List.foldl_cons]
      rw [fill_frame f ps _ a b (fun h => hab (List.mem_cons_of_mem p h))
        (fun h => hba (List.mem_cons_of_mem p h))]
      have h1 : p ≠ (a, b) := fun h => hab (h ▸ List.mem_cons_self p ps)
      have h2 : p ≠ (b, a) := fun h => hba (h ▸ List.mem_cons_self p ps)
      simp only [fillStep, setEntry]
      rw [if_neg, if_neg]
      · rintro ⟨rfl, rfl⟩
        exact h1 (Prod.ext rfl rfl)
      · rintro ⟨rfl, rfl⟩
        exact h2 (Prod.ext rfl rfl)

theorem fill_value (f : ℕ × ℕ → ℤ) :
    ∀ (ps : List (ℕ × ℕ)) (M : ℕ → ℕ → ℤ) (a b : ℕ),
      (∀ p ∈ ps, p.1 < p.2) → ps.Nodup → (a, b) ∈ ps →
      (ps.foldl (fillStep f) M) a b = f (a, b) ∧
        (ps.foldl (fillStep f) M) b a = f (a, b)
  | [], _, _, _, _, _, hmem => absurd hmem (List.not_mem_nil _)
  | p :: ps, M, a, b, hlt, hnd, hmem => by
      have hab : a < b := by
        rcases List.mem_cons.mp hmem with rfl | h
        · exact hlt (a, b) (List.mem_cons_self _ _)
        · exact hlt (a, b) (List.mem_cons_of_mem p h)
      rcases List.mem_cons.mp hmem with rfl | h
      · have hnotin : (a, b) ∉ ps := (List.nodup_cons.mp hnd).1
        have hnotin' : (b, a) ∉ ps := fun hmem' => by
          have := hlt (b, a) (List.mem_cons_of_mem _ hmem')
          omega
        rw [List.foldl_cons,
          (fill_frame f ps _ a b hnotin hnotin'),
          (fill_frame f ps _ b a hnotin' hnotin)]
        constructor
        · simp only [fillStep, setEntry]
          rw [if_neg (fun h => by omega)]
          simp
        · simp [fillStep, setEntry]
      · rw [List.foldl_cons]
        exact fill_value f ps _ a b
          (fun q hq => hlt q (List.mem_cons_of_mem p hq))
          (List.nodup_cons.mp hnd).2 h

theorem fill_nonpos (f : ℕ × ℕ → ℤ) (hf : ∀ p, f p ≤ 0) :
    ∀ (ps : List (ℕ × ℕ)) (M : ℕ → ℕ → ℤ),
      (∀ a b, M a b ≤ 0) → ∀ a b, (ps.foldl (fillStep f) M) a b ≤ 0
  | [], _, hM, a, b => hM a b
  | p :: ps, M, hM, a, b => by
      rw [List.foldl_cons]
      refine fill_nonpos f hf ps _ ?_ a b
      intro x y
      simp only [fillStep, setEntry]
      split
      · exact hf p
      · split
        · exact hf p
        · exact hM x y

theorem buildMatrixFn_eval_lt (rs : List Rec) {i j : ℕ} (hij : i < j)
    (hjn : j < rs.length) :
    buildMatrixFn rs i j = pairDist rs (i, j) ∧
      buildMatrixFn rs j i = pairDist rs (i, j) :=
  fill_value (pairDist rs) (pairList rs.length) _ i j
    (pairList_increasing rs.length) (pairList_nodup rs.length)
    ((pairList_mem rs.length i j).mpr ⟨hij, hjn⟩)

theorem buildMatrixFn_zero_of_not_pair (rs : List Rec) {i j : ℕ}
    (h : ¬(i < j ∧ j < rs.length)) (h' : ¬(j < i ∧ i < rs.length)) :
    buildMatrixFn rs i j = 0 :=
  fill_frame (pairDist rs) (pairList rs.length) _ i j
    (fun hm => h ((pairList_mem rs.length i j).mp hm))
    (fun hm => h' ((pairList_mem rs.length j i).mp hm))

theorem buildMatrixFn_diag (rs : List Rec) (i : ℕ) : buildMatrixFn rs i i = 0 :=
  buildMatrixFn_zero_of_not_pair rs (by omega) (by omega)

theorem buildMatrixFn_symm (rs : List Rec) (i j : ℕ) :
    buildMatrixFn rs i j = buildMatrixFn rs j i := by
  rcases Nat.lt_trichotomy i j with hij | rfl | hji
  · by_cases hjn : j < rs.length
    · obtain ⟨h1, h2⟩ := buildMatrixFn_eval_lt rs hij hjn
      rw [h1, h2]
    · rw [buildMatrixFn_zero_of_not_pair rs (by omega) (by omega),
        buildMatrixFn_zero_of_not_pair rs (by omega) (by omega)]
  · rfl
  · by_cases hin : i < rs.length
    · obtain ⟨h1, h2⟩ := buildMatrixFn_eval_lt rs hji hin
      rw [h1, h2]
    · rw [buildMatrixFn_zero_of_not_pair rs (by omega) (by omega),
        buildMatrixFn_zero_of_not_pair rs (by omega) (by omega)]

theorem buildMatrix_length (rs : List Rec) :
    (buildMatrix rs).length = rs.length := by
  simp [buildMatrix]

theorem buildMatrix_row_length (rs : List Rec) :
    ∀ row ∈ buildMatrix rs, row.length = rs.length := by
  intro row hrow
  simp only [buildMatrix, List.mem_map, List.mem_range] at hrow
  obtain ⟨i, _, rfl⟩ := hrow
  simp

theorem buildMatrix_getD (rs : List Rec) {i j : ℕ} (hi : i < rs.length)
    (hj : j < rs.length) :
    ((buildMatrix rs).getD i []).getD j 0 = buildMatrixFn rs i j := by
  have h1 : (buildMatrix rs).getD i [] =
      (List.range rs.length).map (fun j => buildMatrixFn rs i j) := by
    unfold buildMatrix
    rw [List.getD_eq_getElem _ _ (by simpa using hi), List.getElem_map,
      List.getElem_range]
  rw [h1, List.getD_eq_getElem _ _ (by simpa using hj), List.getElem_map,
    List.getElem_range]

theorem buildMatrix_hasShape (rs : List Rec) :
    hasShape (buildMatrix rs) rs.length = true := by
  simp only [hasShape, Bool.and_eq_true, beq_iff_eq, List.all_eq_true]
  exact ⟨buildMatrix_length rs, fun row hrow => buildMatrix_row_length rs row hrow⟩

/-! ## Lemmas about the pairwise estimator -/

theorem line_similarity_nonpos {α : Type} (t1 t2 : α × List Char) :
    line_similarity t1 t2 ≤ 0 := by
  simp only [line_similarity]
  exact neg_nonpos.mpr (Int.natCast_nonneg _)

theorem buildMatrixFn_nonpos (rs : List Rec) (a b : ℕ) :
    buildMatrixFn rs a b ≤ 0 :=
  fill_nonpos (pairDist rs) (fun _ => line_similarity_nonpos _ _)
    (pairList rs.length) _ (fun _ _ => le_refl 0) a b

theorem inter_nil_iff_ball {l1 l2 : List (List Char)} :
    l1.inter l2 = [] ↔ ∀ w ∈ l1, w ∉ l2 := by
  simp [List.inter, List.filter_eq_nil_iff]

theorem inter_nil_symm {l1 l2 : List (List Char)} :
    l1.inter l2 = [] ↔ l2.inter l1 = [] := by
  rw [inter_nil_iff_ball, inter_nil_iff_ball]
  exact ⟨fun h w hw2 hw1 => h w hw1 hw2, fun h w hw1 hw2 => h w hw2 hw1⟩

theorem line_similarity_symm {α : Type} (t1 t2 : α × List Char) :
    line_similarity t1 t2 = line_similarity t2 t1 := by
  simp only [line_similarity]
  by_cases h : (significant (process_first_line t1.2)).inter
      (significant (process_first_line t2.2)) = []
  · rw [if_pos h, if_pos (inter_nil_symm.mp h), Nat.max_comm]
  · rw [if_neg h, if_neg (fun h' => h (inter_nil_symm.mp h')), levenshtein_symm]

theorem buildMatrix_getD_nonpos (rs : List Rec) (a b : ℕ) :
    ((buildMatrix rs).getD a []).getD b 0 ≤ 0 := by
  by_cases ha : a < rs.length
  · by_cases hb : b < rs.length
    · rw [buildMatrix_getD rs ha hb]
      exact buildMatrixFn_nonpos rs a b
    · have hrow : (buildMatrix rs).getD a [] ∈ buildMatrix rs := by
        rw [List.getD_eq_getElem _ _ (by rw [buildMatrix_length]; omega)]
        exact List.getElem_mem _
      rw [List.getD_eq_default _ _ (by rw [buildMatrix_row_length rs _ hrow]; omega)]
  · have houter : (buildMatrix rs).getD a [] = [] :=
      List.getD_eq_default _ _ (by rw [buildMatrix_length]; omega)
    rw [houter]
    simp

theorem snd_getD_eq : ∀ {l l' : List Rec},
    l.map Prod.snd = l'.map Prod.snd →
    ∀ k, (l.getD k dfltRec).2 = (l'.getD k dfltRec).2
  | [], [], _, _ => rfl
  | [], _ :: _, h, _ => by simp at h
  | _ :: _, [], h, _ => by simp at h
  | c :: t, c' :: t', h, k => by
      simp only [List.map_cons, List.cons.injEq] at h
      cases k with
      | zero => simpa using h.1
      | succ k => simpa using snd_getD_eq h.2 k

/-! ## The claims -/

/-- C1, counterexample: the pairwise estimator is not non-negative and the
matrix entries are not non-negative.  On the records with first lines
`cat` and `dogs` the estimator returns `-4` (the negation already applied
inside the estimator), and that negative value is what the fresh matrix
stores. -/
theorem estimator_sign_counterexample :
    line_similarity catRec dogsRec = -4 ∧
      line_similarity catRec dogsRec < 0 ∧
      ((buildMatrix [catRec, dogsRec]).getD 0 []).getD 1 0 = -4 ∧
      ((buildMatrix [catRec, dogsRec]).getD 0 []).getD 1 0 < 0 := by
  refine ⟨by decide, by decide, by decide, by decide⟩

/-- C1, amended: the estimator returns a non-positive value (it negates the
dissimilarity itself; the magnitude is the dissimilarity, larger meaning
less similar), and consequently every entry of a freshly built distance
matrix is non-positive, not non-negative. -/
theorem estimator_and_matrix_nonpositive :
    (∀ t1 t2 : Rec, line_similarity t1 t2 ≤ 0) ∧
      (∀ (rs : List Rec) (a b : ℕ), buildMatrixFn rs a b ≤ 0) ∧
      (∀ (rs : List Rec) (a b : ℕ), ((buildMatrix rs).getD a []).getD b 0 ≤ 0) :=
  ⟨fun t1 t2 => line_similarity_nonpos t1 t2,
    fun rs a b => buildMatrixFn_nonpos rs a b,
    fun rs a b => buildMatrix_getD_nonpos rs a b⟩

/-- C2, counterexample: `distance(a,a)` is not `0` for every record.  For
the first line `cat sat` (nonempty normalized text, no token of length at
least 4) the disjoint-vocabulary shortcut fires against the record itself
and the estimator returns minus the joined length, `-7`. -/
theorem identity_counterexample :
    line_similarity catSatRec catSatRec = -7 ∧
      line_similarity catSatRec catSatRec ≠ 0 := by
  refine ⟨by decide, by decide⟩

/-- C2, amended: on identical normalized texts the estimator returns `0`
exactly when the significant-token set is nonempty or the joined normalized
text is empty; otherwise the shortcut fires and the value is minus the
joined length. -/
theorem identity_iff_significant_or_empty (t1 t2 : Rec)
    (h : process_first_line t1.2 = process_first_line t2.2) :
    line_similarity t1 t2 = 0 ↔
      (significant (process_first_line t1.2) ≠ [] ∨
        joinSpace (process_first_line t1.2) = []) := by
  simp only [line_similarity, ← h]
  by_cases hs : significant (process_first_line t1.2) = []
  · rw [hs]
    rw [if_pos (by simp [List.inter])]
    simp [neg_eq_zero, List.length_eq_zero]
  · obtain ⟨w, hw⟩ := List.exists_mem_of_ne_nil _ hs
    have hinter : ¬ (significant (process_first_line t1.2)).inter
        (significant (process_first_line t1.2)) = [] :=
      fun hnil => (inter_nil_iff_ball.mp hnil) w hw hw
    rw [if_neg hinter, levenshtein_self]
    simp [hs]

/-- C2, witness for the amended theorem at the record with first line
`dogs` (one significant token): the hypothesis holds definitionally and the
estimator is zero on the pair. -/
theorem identity_iff_witness :
    process_first_line dogsRec.2 = process_first_line dogsRec.2 ∧
      (line_similarity dogsRec dogsRec = 0 ↔
        (significant (process_first_line dogsRec.2) ≠ [] ∨
          joinSpace (process_first_line dogsRec.2) = [])) :=
  ⟨rfl, identity_iff_significant_or_empty dogsRec dogsRec rfl⟩

/-- C3: the magnitude of the estimator follows the spec's two-branch rule
exactly — `spec_distance` is written from the spec's words (sections 4.1,
4.2): the maximum joined length when the normalized lines share no token of
length at least 4, the Levenshtein distance between the rejoined lines
otherwise. -/
theorem magnitude_follows_two_branch_rule (t1 t2 : ℤ × List Char) :
    (line_similarity t1 t2).natAbs = spec_distance t1 t2 := by
  simp only [line_similarity, spec_distance, significant,
    process_first_line_eq_spec]
  rw [Int.natAbs_neg, Int.natAbs_ofNat]
  exact if_congr inter_nil_iff_ball rfl rfl

/-- C4, counterexample: a stale cache IS silently reused for a different
record set of the same size.  The stored matrix `[[0,-7],[-7,0]]` was not
computed from the records `cat`, `dogs` (their matrix is `[[0,-4],[-4,0]]`),
yet loading succeeds and returns it because only the shape is checked. -/
theorem stale_same_size_cache_counterexample :
    get_or_create_distance_matrix [catRec, dogsRec] (some [[0, -7], [-7, 0]]) =
        Except.ok [[0, -7], [-7, 0]] ∧
      buildMatrix [catRec, dogsRec] = [[0, -4], [-4, 0]] ∧
      ([[0, -7], [-7, 0]] : List (List ℤ)) ≠ [[0, -4], [-4, 0]] :=
  ⟨rfl, by decide, by decide⟩

/-- C4, amended: the cache guards only against a size mismatch.  A
successful load always has shape `(n, n)`, and with no cache present the
returned matrix is the one computed from exactly the given record set; but
a cached matrix of the right shape is returned as-is even when it was
persisted for a different record set of the same size. -/
theorem cache_validates_only_shape (rs : List Rec)
    (store : Option (List (List ℤ))) (M : List (List ℤ))
    (h : get_or_create_distance_matrix rs store = Except.ok M) :
    hasShape M rs.length = true ∧ (store = none → M = buildMatrix rs) := by
  cases store with
  | none =>
      simp only [get_or_create_distance_matrix, Except.ok.injEq] at h
      exact ⟨h ▸ buildMatrix_hasShape rs, fun _ => h.symm⟩
  | some M0 =>
      simp only [get_or_create_distance_matrix] at h
      by_cases hshape : hasShape M0 rs.length = true
      · rw [if_pos hshape] at h
        cases h
        exact ⟨hshape, fun hcontra => by cases hcontra⟩
      · rw [if_neg hshape] at h
        cases h

/-- C4, witness for the amended theorem: with no cache and the records
`cat`, `dogs`, the call succeeds and its result has shape `(2, 2)` and
equals the freshly computed matrix. -/
theorem cache_validates_only_shape_witness :
    get_or_create_distance_matrix [catRec, dogsRec] none =
        Except.ok (buildMatrix [catRec, dogsRec]) ∧
      hasShape (buildMatrix [catRec, dogsRec])
          ([catRec, dogsRec] : List Rec).length = true ∧
      (none = (none : Option (List (List ℤ))) →
        buildMatrix [catRec, dogsRec] = buildMatrix [catRec, dogsRec]) :=
  ⟨rfl,
    (cache_validates_only_shape [catRec, dogsRec] none _ rfl).1,
    (cache_validates_only_shape [catRec, dogsRec] none _ rfl).2⟩

/-- C5: loading a cached matrix of the wrong shape fails with the
shape-mismatch error, and a cached matrix of shape `(n, n)` is returned
unchanged. -/
theorem cache_shape_check_exact (rs : List Rec) (M : List (List ℤ)) :
    (hasShape M rs.length = false →
      get_or_create_distance_matrix rs (some M) =
        Except.error CacheError.shapeMismatch) ∧
    (hasShape M rs.length = true →
      get_or_create_distance_matrix rs (some M) = Except.ok M) := by
  constructor <;> intro h <;> simp [get_or_create_distance_matrix, h]

/-- C5, witness: a 1 by 1 matrix against two records fails with the
shape-mismatch error; a 2 by 2 matrix against two records is returned
unchanged. -/
theorem cache_shape_check_exact_witness :
    (hasShape [[0]] ([catRec, dogsRec] : List Rec).length = false ∧
      get_or_create_distance_matrix [catRec, dogsRec] (some [[0]]) =
        Except.error CacheError.shapeMismatch) ∧
    (hasShape [[0, 0], [0, 0]] ([catRec, dogsRec] : List Rec).length = true ∧
      get_or_create_distance_matrix [catRec, dogsRec] (some [[0, 0], [0, 0]]) =
        Except.ok [[0, 0], [0, 0]]) :=
  ⟨⟨by decide, (cache_shape_check_exact [catRec, dogsRec] [[0]]).1 (by decide)⟩,
    ⟨by decide,
      (cache_shape_check_exact [catRec, dogsRec] [[0, 0], [0, 0]]).2 (by decide)⟩⟩

/-- C6, counterexample: a matrix-cache failure in one cluster is fatal to
the whole run, not just to that cluster.  With a stale 2 by 2 cache for
cluster 0 (a singleton cluster) and a healthy sibling cluster 1, the whole
call fails with the shape-mismatch error — no rows at all are produced —
although cluster 1 on its own would succeed and produce its row. -/
theorem sibling_abort_counterexample :
    create_subclusters [(0, [abcdRec]), (1, [wxyzRec])] staleStore =
        Except.error CacheError.shapeMismatch ∧
      create_subclusters [(1, [wxyzRec])] staleStore =
        Except.ok [(1, 0, 5, ("wxyz".toList))] :=
  ⟨rfl, rfl⟩

/-- C6, amended: the per-cluster loop of `create_subclusters` has no
exception handling, so a matrix-cache failure in any member cluster aborts
the entire run with that error; sibling clusters are processed only when
every cluster before them succeeds. -/
theorem cluster_failure_aborts_whole_run :
    ∀ (clusters : List (ℤ × List Rec))
      (store : ℤ → Option (List (List ℤ))) (cid : ℤ) (recs : List Rec),
      (cid, recs) ∈ clusters →
      get_or_create_distance_matrix recs (store cid) =
        Except.error CacheError.shapeMismatch →
      create_subclusters clusters store = Except.error CacheError.shapeMismatch
  | [], _, _, _, hmem, _ => absurd hmem (List.not_mem_nil _)
  | (cid0, recs0) :: rest, store, cid, recs, hmem, hfail => by
      rcases List.mem_cons.mp hmem with heq | htail
      · obtain ⟨rfl, rfl⟩ := Prod.mk.injEq .. ▸ heq
        simp only [create_subclusters, hfail]
      · simp only [create_subclusters]
        cases hget : get_or_create_distance_matrix recs0 (store cid0) with
        | error e => cases e; rfl
        | ok M =>
            rw [cluster_failure_aborts_whole_run rest store cid recs htail hfail]

/-- C6, witness for the amended theorem at the concrete two-cluster input:
cluster 0 is a member, its cache load fails, and the whole run fails. -/
theorem cluster_failure_aborts_whole_run_witness :
    ((0 : ℤ), [abcdRec]) ∈ [((0 : ℤ), [abcdRec]), ((1 : ℤ), [wxyzRec])] ∧
      get_or_create_distance_matrix [abcdRec] (staleStore 0) =
        Except.error CacheError.shapeMismatch ∧
      create_subclusters [(0, [abcdRec]), (1, [wxyzRec])] staleStore =
        Except.error CacheError.shapeMismatch :=
  ⟨by decide, rfl,
    cluster_failure_aborts_whole_run [(0, [abcdRec]), (1, [wxyzRec])]
      staleStore 0 [abcdRec] (by decide) rfl⟩

/-- C7: zero records supplied to the matrix build return an empty matrix
(both with no cache and with an empty cached matrix), and zero records
supplied to clustering return an empty label mapping; neither errors. -/
theorem empty_input_yields_empty_results :
    get_or_create_distance_matrix ([] : List Rec) none = Except.ok [] ∧
      get_or_create_distance_matrix ([] : List Rec) (some []) = Except.ok [] ∧
      buildMatrix ([] : List Rec) = [] ∧
      cluster_labels [] = [] :=
  ⟨rfl, rfl, rfl, rfl⟩

/-- C8: a freshly built matrix is square of size `n` by `n`, symmetric with
zero diagonal, its above-diagonal entries are exactly the estimator values,
the materialized rows agree with the filled function, and the fill loop
visits each unordered pair `(i, j)`, `i < j`, exactly once. -/
theorem fresh_matrix_invariant (rs : List Rec) :
    ((buildMatrix rs).length = rs.length ∧
      ∀ row ∈ buildMatrix rs, row.length = rs.length) ∧
    (∀ i j, buildMatrixFn rs i j = buildMatrixFn rs j i) ∧
    (∀ i, buildMatrixFn rs i i = 0) ∧
    (∀ i j, i < j → j < rs.length →
      buildMatrixFn rs i j =
        line_similarity (rs.getD i dfltRec) (rs.getD j dfltRec)) ∧
    (∀ i j, i < rs.length → j < rs.length →
      ((buildMatrix rs).getD i []).getD j 0 = buildMatrixFn rs i j) ∧
    ((pairList rs.length).Nodup ∧
      ∀ i j, ((i, j) ∈ pairList rs.length ↔ i < j ∧ j < rs.length) ∧
        (i < j → j < rs.length →
          @List.count (ℕ × ℕ) instBEqOfDecidableEq (i, j) (pairList rs.length) = 1)) :=
  ⟨⟨buildMatrix_length rs, buildMatrix_row_length rs⟩,
    buildMatrixFn_symm rs,
    buildMatrixFn_diag rs,
    fun _ _ hij hjn => (buildMatrixFn_eval_lt rs hij hjn).1,
    fun _ _ hi hj => buildMatrix_getD rs hi hj,
    ⟨pairList_nodup rs.length,
      fun i j =>
        ⟨pairList_mem rs.length i j,
          fun hij hjn =>
            List.count_eq_one_of_mem (pairList_nodup rs.length)
              ((pairList_mem rs.length i j).mpr ⟨hij, hjn⟩)⟩⟩⟩

/-- C8, witness at the two records `cat`, `dogs`: the above-diagonal entry
is the estimator value and the pair `(0, 1)` is visited exactly once. -/
theorem fresh_matrix_invariant_witness :
    (0 : ℕ) < 1 ∧ 1 < ([catRec, dogsRec] : List Rec).length ∧
      buildMatrixFn [catRec, dogsRec] 0 1 = line_similarity catRec dogsRec ∧
      @List.count (ℕ × ℕ) instBEqOfDecidableEq (0, 1)
        (pairList ([catRec, dogsRec] : List Rec).length) = 1 :=
  ⟨by decide, by decide,
    (fresh_matrix_invariant [catRec, dogsRec]).2.2.2.1 0 1 (by decide) (by decide),
    ((fresh_matrix_invariant [catRec, dogsRec]).2.2.2.2.2.2 0 1).2
      (by decide) (by decide)⟩

/-- C9: the pairwise estimator is symmetric in its two records. -/
theorem estimator_symmetric (t1 t2 : Rec) :
    line_similarity t1 t2 = line_similarity t2 t1 :=
  line_similarity_symm t1 t2

/-- C10: the estimator reads only the text component of a record, never
the id; hence record lists that agree on texts yield the same distance
matrix and the same cluster labelling. -/
theorem estimator_ignores_ids (rs rs' : List Rec)
    (h : rs.map Prod.snd = rs'.map Prod.snd) :
    (∀ t1 t2 u1 u2 : Rec, t1.2 = u1.2 → t2.2 = u2.2 →
        line_similarity t1 t2 = line_similarity u1 u2) ∧
      buildMatrixFn rs = buildMatrixFn rs' ∧
      buildMatrix rs = buildMatrix rs' ∧
      cluster_labels (buildMatrix rs) = cluster_labels (buildMatrix rs') := by
  have hlen : rs.length = rs'.length := by
    have h' := congrArg List.length h
    simpa using h'
  have hsim : ∀ t1 t2 u1 u2 : Rec, t1.2 = u1.2 → t2.2 = u2.2 →
      line_similarity t1 t2 = line_similarity u1 u2 := by
    intro t1 t2 u1 u2 h1 h2
    simp only [line_similarity, h1, h2]
  have hpd : pairDist rs = pairDist rs' := by
    funext p
    exact hsim _ _ _ _ (snd_getD_eq h p.1) (snd_getD_eq h p.2)
  have hfn : buildMatrixFn rs = buildMatrixFn rs' := by
    unfold buildMatrixFn
    rw [hlen, hpd]
  have hM : buildMatrix rs = buildMatrix rs' := by
    unfold buildMatrix
    rw [hlen, hfn]
  exact ⟨hsim, hfn, hM, congrArg cluster_labels hM⟩

/-- C10, witness: relabelling the ids of the records `cat`, `dogs` leaves
texts, matrix and labels unchanged. -/
theorem estimator_ignores_ids_witness :
    ([catRec, dogsRec] : List Rec).map Prod.snd =
        ([catRec2, dogsRec2] : List Rec).map Prod.snd ∧
      ((∀ t1 t2 u1 u2 : Rec, t1.2 = u1.2 → t2.2 = u2.2 →
          line_similarity t1 t2 = line_similarity u1 u2) ∧
        buildMatrixFn [catRec, dogsRec] = buildMatrixFn [catRec2, dogsRec2] ∧
        buildMatrix [catRec, dogsRec] = buildMatrix [catRec2, dogsRec2] ∧
        cluster_labels (buildMatrix [catRec, dogsRec]) =
          cluster_labels (buildMatrix [catRec2, dogsRec2])) :=
  ⟨rfl, estimator_ignores_ids [catRec, dogsRec] [catRec2, dogsRec2] rfl⟩

end ClusterFolger
